import Mathlib

/-!
Verification development for the typed-configs repository.

The core under verification is `ConfigManager` (src/ConfigManager.ts): a
registry that instantiates one singleton per registered class, overlays
values from a YAML file and from environment variables on top of in-class
defaults, validates required fields, and supports snapshot/restore of the
current values.

The collaborator modules (configMetadata, configHelpers, decorators, types)
are not part of the sources; following the spec, they are modelled here as
pure definitions whose doc comments start with `Modelled from the spec:`.
In particular, the spec states that the ConfigValue accessor mechanism makes
reads and writes of a declared config property go through the per-class
field metadata value store, so an instance is a plain shell with an identity
and the field values live in that store.
-/

set_option autoImplicit false

namespace TypedConfigs

/-- A supported configuration value: string, number or boolean
(types.ts SupportedConfigTypes, modelled with Int for the numeric case). -/
inductive CValue where
  | str (s : String)
  | num (n : Int)
  | boolv (b : Bool)
deriving DecidableEq, Repr

/-- The declared type tag of a config field (types.ts). -/
inductive ConfigType where
  | string
  | number
  | boolean
deriving DecidableEq, Repr

/-- The options record attached to one config field, together with the
in-class default initializer of the property (`initValue`), which models the
baseline value assigned when the class is instantiated. -/
structure FieldDecl where
  property : String
  name : String
  description : String := ""
  required : Bool := false
  recommendedValue : Option CValue := none
  type : ConfigType := ConfigType.string
  initValue : Option CValue := none
deriving DecidableEq, Repr

/-- A config class: its name and its config field declarations in
declaration order (the class token plus its field metadata store). -/
structure ClassDecl where
  className : String
  fields : List FieldDecl
deriving DecidableEq, Repr

/-- A config instance: a shell with an identity; field values live in the
per-class metadata value store (see the note in the module docstring). The
`own` list holds ordinary own properties written to names that are not
declared config fields. -/
structure Instance where
  id : Nat
  own : List (String × Option CValue) := []
deriving DecidableEq, Repr

/-- The errors thrown by the manager and its collaborators (spec section 7). -/
inductive CMError where
  | alreadyAdded (className : String)
  | noConfigFields (className : String)
  | notRegistered (className : String)
  | missingRequiredField (fieldName : String)
  | unknownProperty (property : String) (className : String)
  | configFileNotFound (path : String)
deriving DecidableEq, Repr

/-- Options passed to `add` (types.ts ConfigOptions). -/
structure ConfigOptions where
  configYmlPath : Option String := none
deriving DecidableEq, Repr

instance {ε α : Type} [DecidableEq ε] [DecidableEq α] : DecidableEq (Except ε α) :=
  fun a b =>
    match a, b with
    | Except.ok x, Except.ok y =>
        if h : x = y then isTrue (by rw [h]) else isFalse (by intro hc; cases hc; exact h rfl)
    | Except.error x, Except.error y =>
        if h : x = y then isTrue (by rw [h]) else isFalse (by intro hc; cases hc; exact h rfl)
    | Except.ok _, Except.error _ => isFalse (by intro hc; cases hc)
    | Except.error _, Except.ok _ => isFalse (by intro hc; cases hc)

/-- First-match association lookup, as a JS Map or plain object lookup. -/
def lookupEntry {κ α : Type} [DecidableEq κ] (k : κ) : List (κ × α) → Option α
  | [] => none
  | e :: rest => if e.fst = k then some e.snd else lookupEntry k rest

/-- Association update, as JS Map.set: updates in place when the key is
present (keeping insertion order), appends otherwise. -/
def setEntry {κ α : Type} [DecidableEq κ] (k : κ) (v : α) : List (κ × α) → List (κ × α)
  | [] => [(k, v)]
  | e :: rest => if e.fst = k then (k, v) :: rest else e :: setEntry k v rest

@[simp] theorem lookupEntry_nil {κ α : Type} [DecidableEq κ] (k : κ) :
    lookupEntry (α := α) k [] = none := rfl

@[simp] theorem lookupEntry_cons {κ α : Type} [DecidableEq κ] (k : κ) (e : κ × α)
    (l : List (κ × α)) :
    lookupEntry k (e :: l) = if e.fst = k then some e.snd else lookupEntry k l := rfl

/-- Looking up the key just set returns the value just set. -/
theorem lookupEntry_setEntry_self {κ α : Type} [DecidableEq κ] (k : κ) (v : α)
    (l : List (κ × α)) : lookupEntry k (setEntry k v l) = some v := by
  induction l with
  | nil => simp [setEntry]
  | cons e rest ih =>
      by_cases h : e.fst = k <;> simp [setEntry, h, ih]

/-- Setting a key to the value it already holds leaves the list unchanged. -/
theorem setEntry_lookup_self {κ α : Type} [DecidableEq κ] (k : κ) (v : α)
    (l : List (κ × α)) (h : lookupEntry k l = some v) : setEntry k v l = l := by
  induction l with
  | nil => simp [lookupEntry] at h
  | cons e rest ih =>
      by_cases he : e.fst = k
      · simp only [lookupEntry_cons, he, if_pos] at h
        have hev : e = (k, v) := by
          cases e
          simp only [Option.some.injEq] at h
          simp_all
        simp [setEntry, he, hev]
      · simp only [lookupEntry_cons, he, if_neg, if_false] at h
        simp [setEntry, he, ih h]

/-- `List.set` at an in-range index with the value already there is the
identity. -/
theorem set_getD_self {α : Type} (l : List α) (i : Nat) (d : α) (h : i < l.length) :
    l.set i (l.getD i d) = l := by
  induction l generalizing i with
  | nil => simp at h
  | cons a rest ih =>
      cases i with
      | zero => simp
      | succ j =>
          simp only [List.length_cons, Nat.succ_lt_succ_iff] at h
          simp only [List.getD_cons_succ, List.set]
          rw [ih j h]

/-- The whole mutable state of the singleton `Configs` manager plus the
metadata value stores of the classes: `configs` is the registry map from
class to its instance in registration order; `metaVals` holds, per class,
the current field values aligned with the declaration order of
`ClassDecl.fields`; `nextId` provides fresh instance identities. -/
structure CMState where
  nextId : Nat := 0
  metaVals : List (ClassDecl × List (Option CValue)) := []
  configs : List (ClassDecl × Instance) := []
deriving DecidableEq, Repr

/-- Index of the first field declared for property `p` in a field list. -/
def findPropIndex (p : String) : List FieldDecl → Option Nat
  | [] => none
  | f :: fs => if f.property = p then some 0 else (findPropIndex p fs).map (· + 1)

/-- Index of the field declared for property `p` (none when `p` is not a
declared config property of the class). -/
def fieldIndex? (c : ClassDecl) (p : String) : Option Nat :=
  findPropIndex p c.fields

/-- The current value vector of a class, defaulting to all-unset when the
class was never instantiated. -/
def valsFor (s : CMState) (c : ClassDecl) : List (Option CValue) :=
  (lookupEntry c s.metaVals).getD (List.replicate c.fields.length none)

/-- Modelled from the spec: reading a declared config property of an
instance goes through the ConfigValue accessor into the field metadata
value store. -/
def metaVal (s : CMState) (c : ClassDecl) (p : String) : Option CValue :=
  match fieldIndex? c p with
  | some i => (valsFor s c).getD i none
  | none => none

/-- Write the metadata value of declared property `p`; no-op when `p` is
not declared. -/
def setMetaVal (s : CMState) (c : ClassDecl) (p : String) (v : Option CValue) : CMState :=
  match fieldIndex? c p with
  | some i => { s with metaVals := setEntry c ((valsFor s c).set i v) s.metaVals }
  | none => s

/-- Store an instance for a class in the registry map (Map.set). -/
def putConfig (c : ClassDecl) (inst : Instance) (s : CMState) : CMState :=
  { s with configs := setEntry c inst s.configs }

/-- Write an ordinary own property on the registered instance of `c` (the
effect of assigning a name that is not a declared config field). -/
def writeOwn (c : ClassDecl) (p : String) (v : Option CValue) (s : CMState) : CMState :=
  match lookupEntry c s.configs with
  | some inst => putConfig c { inst with own := setEntry p v inst.own } s
  | none => s

/-- Modelled from the spec: assignment to a property of a config instance.
A declared config property is routed by the ConfigValue accessor into the
field metadata value store; any other name becomes an ordinary own property
of the instance object. -/
def assignInstanceProperty (c : ClassDecl) (p : String) (v : Option CValue)
    (s : CMState) : CMState :=
  if (fieldIndex? c p).isSome then setMetaVal s c p v else writeOwn c p v s

/-- Pointwise application of the in-class default initializers to a value
vector: a field with an initializer is reset to it, any other field keeps
its current value. -/
def applyInitValues : List FieldDecl → List (Option CValue) → List (Option CValue)
  | [], _ => []
  | f :: fs, vs =>
      (match f.initValue with
       | some d => some d
       | none => vs.headD none) :: applyInitValues fs vs.tail

/-- Modelled from the spec: `new clazz()` creates a fresh instance shell and
runs the in-class field initializers, which assign the declared defaults
through the ConfigValue accessors into the metadata value store. -/
def instantiate (s : CMState) (c : ClassDecl) : Instance × CMState :=
  (⟨s.nextId, []⟩,
   { s with
      nextId := s.nextId + 1,
      metaVals := setEntry c (applyInitValues c.fields (valsFor s c)) s.metaVals })

/-- Modelled from the spec: the YAML loader produces, for an existing file,
a flat mapping from config name to a value already coerced to the declared
field type; a missing file is an error naming the path. -/
abbrev YamlDoc := List (String × CValue)

/-- Modelled from the spec: the file system the YAML loader reads from,
a mapping from path to document. -/
abbrev FileSystem := List (String × YamlDoc)

/-- Modelled from the spec: the process environment, as the mapping from
variable name to the value already coerced to the declared field type. -/
abbrev EnvMap := List (String × CValue)

/-- Modelled from the spec: configHelpers.loadConfigfromYaml, failing when
the file does not exist. -/
def loadConfigfromYaml (files : FileSystem) (path : String) : Except CMError YamlDoc :=
  match lookupEntry path files with
  | some doc => Except.ok doc
  | none => Except.error (CMError.configFileNotFound path)

/-- Modelled from the spec: configHelpers.getEnvironmentVariableKeys. -/
def getEnvironmentVariableKeys (env : EnvMap) : List String := env.map Prod.fst

/-- Modelled from the spec: configHelpers.loadEnvironmentVariable returns
the value of the variable, coerced to the declared field type. -/
def loadEnvironmentVariable (env : EnvMap) (key : String) (t : ConfigType) :
    Option CValue := lookupEntry key env

/-- Modelled from the spec: configMetadata.getConfigValueNames, the mapping
from declared config name to the field options of the class. -/
def getConfigValueNames (c : ClassDecl) (name : String) : Option FieldDecl :=
  c.fields.find? (fun f => f.name = name)

/-- Modelled from the spec: configMetadata.validateConfigFieldOptions fails
when the class has no config fields; the required/type consistency checks of
the spec cannot fail in this typed embedding. -/
def validateConfigFieldOptions (c : ClassDecl) : Except CMError Unit :=
  if c.fields.isEmpty then Except.error (CMError.noConfigFields c.className)
  else Except.ok ()

/-- Modelled from the spec: a value is missing when it is undefined or the
empty string (the spec requires a non-empty, defined value). -/
def isMissingValue : Option CValue → Bool
  | none => true
  | some (CValue.str s) => s = ""
  | some _ => false

/-- Modelled from the spec: configMetadata.validateRequiredConfigValues
fails with MissingRequiredFieldError naming the first required field whose
value is still missing on the instance. -/
def validateRequiredConfigValues (s : CMState) (c : ClassDecl) : Except CMError Unit :=
  match c.fields.find? (fun f => f.required && isMissingValue (metaVal s c f.property)) with
  | some f => Except.error (CMError.missingRequiredField f.name)
  | none => Except.ok ()

/-- One YAML assignment of ConfigManager.add step 2: write the loaded value
of a known key to the corresponding property. -/
def yamlAssign (yamlValues : YamlDoc) (c : ClassDecl) (st : CMState) (key : String) :
    CMState :=
  match getConfigValueNames c key with
  | some f => setMetaVal st c f.property (lookupEntry key yamlValues)
  | none => st

/-- ConfigManager.add step 2: load the YAML file and assign every key that
matches a known config name to the corresponding property. -/
def yamlOverlay (files : FileSystem) (c : ClassDecl) (path : String) (s : CMState) :
    Except CMError Unit × CMState :=
  match loadConfigfromYaml files path with
  | Except.error e => (Except.error e, s)
  | Except.ok yamlValues =>
      let knownYamlKeys :=
        (yamlValues.map Prod.fst).filter (fun k => (getConfigValueNames c k).isSome)
      (Except.ok (), knownYamlKeys.foldl (yamlAssign yamlValues c) s)

/-- One environment assignment of ConfigManager.add step 3. -/
def envAssign (env : EnvMap) (c : ClassDecl) (st : CMState) (key : String) : CMState :=
  match getConfigValueNames c key with
  | some f => setMetaVal st c f.property (loadEnvironmentVariable env key f.type)
  | none => st

/-- ConfigManager.add step 3: assign every environment variable whose name
matches a known config name to the corresponding property. -/
def envOverlay (env : EnvMap) (c : ClassDecl) (s : CMState) : CMState :=
  let knownEnvKeys :=
    (getEnvironmentVariableKeys env).filter (fun k => (getConfigValueNames c k).isSome)
  knownEnvKeys.foldl (envAssign env c) s

/-- Steps 1 to 3 of ConfigManager.add: create and store the instance so the
in-class defaults are set, then overlay the YAML values (skipped entirely
when configYmlPath is absent or the empty string, which is falsy), then
overlay the environment values. On a YAML loading error the state mutations
made so far persist, as they do across a thrown exception in the source. -/
def preState (env : EnvMap) (files : FileSystem) (c : ClassDecl)
    (options : ConfigOptions) (s : CMState) : Except CMError Unit × CMState :=
  let i1s := instantiate s c
  let sB := putConfig c i1s.fst i1s.snd
  let yr :=
    match options.configYmlPath with
    | some path => if path = "" then (Except.ok (), sB) else yamlOverlay files c path sB
    | none => (Except.ok (), sB)
  match yr with
  | (Except.error e, sC) => (Except.error e, sC)
  | (Except.ok _, sC) => (Except.ok (), envOverlay env c sC)

/-- ConfigManager.add: reject a duplicate registration, validate the field
options, create and store the instance, overlay YAML and environment
values, validate the required fields, then (as the source does) store a
freshly created instance again and return the registry entry. The final
state is returned alongside the result, since in the source a thrown
exception leaves all registry mutations made so far in place. -/
def add (env : EnvMap) (files : FileSystem) (c : ClassDecl) (options : ConfigOptions)
    (s : CMState) : Except CMError Instance × CMState :=
  if (lookupEntry c s.configs).isSome then
    (Except.error (CMError.alreadyAdded c.className), s)
  else
    match validateConfigFieldOptions c with
    | Except.error e => (Except.error e, s)
    | Except.ok _ =>
        match preState env files c options s with
        | (Except.error e, sC) => (Except.error e, sC)
        | (Except.ok _, sD) =>
            match validateRequiredConfigValues sD c with
            | Except.error e => (Except.error e, sD)
            | Except.ok _ =>
                let i2s := instantiate sD c
                let sF := putConfig c i2s.fst i2s.snd
                (match lookupEntry c sF.configs with
                 | some inst => Except.ok inst
                 | none => Except.error (CMError.notRegistered c.className), sF)

/-- ConfigManager.get: the registered instance, or NotRegisteredError. -/
def get (c : ClassDecl) (s : CMState) : Except CMError Instance :=
  match lookupEntry c s.configs with
  | some inst => Except.ok inst
  | none => Except.error (CMError.notRegistered c.className)

/-- Modelled from the spec: configMetadata.getConfigValueOptionsMap, the
ordered mapping from property to field options, failing when the class has
no config fields. -/
def getConfigValueOptionsMap (c : ClassDecl) : Except CMError (List FieldDecl) :=
  if c.fields.isEmpty then Except.error (CMError.noConfigFields c.className)
  else Except.ok c.fields

/-- A snapshot: property names mapped to the captured values. -/
abbrev ConfigSnapshot := List (String × Option CValue)

/-- ConfigManager.takeSnapshot: one entry per declared field, holding the
current value of the field options record. -/
def takeSnapshot (c : ClassDecl) (s : CMState) : Except CMError ConfigSnapshot :=
  match getConfigValueOptionsMap c with
  | Except.error e => Except.error e
  | Except.ok fs => Except.ok (fs.map (fun f => (f.property, metaVal s c f.property)))

/-- ConfigManager.restoreSnapshot: for every key of the snapshot in order,
look the class up (NotRegisteredError when absent, checked inside the loop
as in the source) and assign the snapshot value to that property of the
instance. The state reached before a failure persists. -/
def restoreSnapshot (c : ClassDecl) (snapshot : ConfigSnapshot) (s : CMState) :
    Except CMError Unit × CMState :=
  match snapshot with
  | [] => (Except.ok (), s)
  | kv :: rest =>
      match get c s with
      | Except.error e => (Except.error e, s)
      | Except.ok _ => restoreSnapshot c rest (assignInstanceProperty c kv.fst kv.snd s)

/-- The exported definition record (spec section 6): name, description,
required, recommended value and type of one field. -/
structure ConfigPropertyDefinition where
  name : String
  description : String
  required : Bool
  recommendedValue : Option CValue
  type : ConfigType
deriving DecidableEq, Repr

/-- The copy of a field options record pushed by getConfigsDefintions (the
source copies the record so the caller cannot alter the registry). -/
def definitionOfField (f : FieldDecl) : ConfigPropertyDefinition :=
  ⟨f.name, f.description, f.required, f.recommendedValue, f.type⟩

/-- ConfigManager.getConfigsDefintions: push one copied record per field of
every registered class, iterating the registry in registration order and
the fields in declaration order. -/
def getConfigsDefintions (s : CMState) : List ConfigPropertyDefinition :=
  s.configs.foldl
    (fun acc e => e.fst.fields.foldl (fun acc2 f => acc2 ++ [definitionOfField f]) acc) []

/-- The config field of the test suite: property propertyDefaultHelloWorld
with config name HELLO_WORLD and in-class default value "Hi" (the default
of the example in spec section 8). -/
def helloField : FieldDecl :=
  { property := "propertyDefaultHelloWorld", name := "HELLO_WORLD",
    description := "X", required := false, recommendedValue := none,
    type := ConfigType.string, initValue := some (CValue.str "Hi") }

/-- The example class of the test suite, with the single field above. -/
def exampleClass : ClassDecl :=
  { className := "ExampleClass", fields := [helloField] }

/-- An environment carrying HELLO_WORLD=HeyWorld (spec section 8). -/
def envHey : EnvMap := [("HELLO_WORLD", CValue.str "HeyWorld")]

/-- The initial, empty manager state. -/
def s0 : CMState := {}

/-- A state where exampleClass is registered with its default value set. -/
def s1 : CMState :=
  { nextId := 1,
    metaVals := [(exampleClass, [some (CValue.str "Hi")])],
    configs := [(exampleClass, ⟨0, []⟩)] }

/-- A class with one required field that has no in-class default (the
MissingRequiredFieldError example of spec section 8). -/
def requiredClass : ClassDecl :=
  { className := "ReqClass",
    fields := [{ property := "apiKey", name := "API_KEY", required := true }] }

/-- A found property index is within the field list. -/
theorem findPropIndex_lt_length {p : String} :
    ∀ {l : List FieldDecl} {i : Nat}, findPropIndex p l = some i → i < l.length := by
  intro l
  induction l with
  | nil => intro i h; simp [findPropIndex] at h
  | cons f fs ih =>
      intro i h
      by_cases hp : f.property = p
      · simp only [findPropIndex, hp, if_pos, if_true, Option.some.injEq] at h
        subst h
        simp
      · simp only [findPropIndex, hp, if_false, if_neg] at h
        cases hj : findPropIndex p fs with
        | none => rw [hj] at h; exact Option.noConfusion h
        | some j =>
            rw [hj] at h
            have h2 : some (j + 1) = some i := h
            have hji := Option.some.inj h2
            subst hji
            have := ih hj
            simp only [List.length_cons]
            omega

/-- Every field of the list has a property index. -/
theorem findPropIndex_isSome_of_mem {f : FieldDecl} :
    ∀ {l : List FieldDecl}, f ∈ l → (findPropIndex f.property l).isSome := by
  intro l
  induction l with
  | nil => intro h; simp at h
  | cons g gs ih =>
      intro h
      by_cases hp : g.property = f.property
      · simp [findPropIndex, hp]
      · have hf : f ∈ gs := by
          rcases List.mem_cons.mp h with rfl | hm
          · exact absurd rfl hp
          · exact hm
        have hs := ih hf
        simp only [findPropIndex, hp, if_neg, if_false]
        cases hj : findPropIndex f.property gs with
        | none => rw [hj] at hs; exact Bool.noConfusion hs
        | some j => rfl

/-- `List.set` at an in-range index followed by `getD` at the same index
reads the written value. -/
theorem getD_set_self {α : Type} (l : List α) (i : Nat) (v d : α) (h : i < l.length) :
    (l.set i v).getD i d = v := by
  induction l generalizing i with
  | nil => simp at h
  | cons a rest ih =>
      cases i with
      | zero => simp
      | succ j =>
          simp only [List.length_cons, Nat.succ_lt_succ_iff] at h
          simp only [List.set, List.getD_cons_succ]
          exact ih j h

/-- C1: the code of `add` re-creates a fresh instance after validation
(`this.configs.set(clazz, new clazz())` just before the return), so the
environment value written by the overlay is discarded from the registered
state and the field reverts to its in-class default. With default "Hi" and
environment HELLO_WORLD=HeyWorld, the overlay state holds "HeyWorld" but
the state after `add` holds "Hi", against the claimed env > YAML > default
precedence for the registered value. -/
theorem C1_env_value_discarded_on_registration :
    metaVal (preState envHey [] exampleClass ⟨none⟩ s0).snd exampleClass
        "propertyDefaultHelloWorld" = some (CValue.str "HeyWorld")
    ∧ (add envHey [] exampleClass ⟨none⟩ s0).fst = Except.ok ⟨1, []⟩
    ∧ metaVal (add envHey [] exampleClass ⟨none⟩ s0).snd exampleClass
        "propertyDefaultHelloWorld" = some (CValue.str "Hi") := by
  decide

/-- C4: `restoreSnapshot` never validates the snapshot keys: a key that is
not a declared field is assigned as a plain own property of the instance
and the call returns without any UnknownPropertyError, although the claim
and the test suite expect the error naming the property and the class. -/
theorem C4_unknown_snapshot_key_not_rejected :
    restoreSnapshot exampleClass [("unknownProperty", some (CValue.str "value"))] s1
      = (Except.ok (),
         { s1 with configs :=
            [(exampleClass, ⟨0, [("unknownProperty", some (CValue.str "value"))]⟩)] }) := by
  decide

/-- C5: `get` on a never-registered class does fail with
NotRegisteredError, and so does `restoreSnapshot` with a non-empty
snapshot; but the registration check of `restoreSnapshot` sits inside the
per-key loop, so with the empty snapshot the call returns without error,
against the claim (and the test suite), which expects NotRegisteredError
for every snapshot including the empty one. -/
theorem C5_empty_snapshot_skips_registration_check :
    get exampleClass s0 = Except.error (CMError.notRegistered "ExampleClass")
    ∧ (restoreSnapshot exampleClass
        [("propertyDefaultHelloWorld", some (CValue.str "x"))] s0).fst
        = Except.error (CMError.notRegistered "ExampleClass")
    ∧ restoreSnapshot exampleClass [] s0 = (Except.ok (), s0) := by
  decide

/-- A non-nil list is not isEmpty. -/
theorem isEmpty_false_of_ne_nil {α : Type} {l : List α} (h : l ≠ []) : l.isEmpty = false := by
  cases l with
  | nil => exact absurd rfl h
  | cons a rest => rfl

/-- Writing a declared property then reading it back gives the written
value, on states whose value vector has the declared length. -/
theorem metaVal_setMetaVal_self (s : CMState) (c : ClassDecl) (p : String)
    (v : Option CValue) (hi : (fieldIndex? c p).isSome = true)
    (hlen : (valsFor s c).length = c.fields.length) :
    metaVal (setMetaVal s c p v) c p = v := by
  cases hidx : fieldIndex? c p with
  | none => rw [hidx] at hi; exact Bool.noConfusion hi
  | some i =>
      have hb : i < c.fields.length := findPropIndex_lt_length hidx
      have hvlen : i < (valsFor s c).length := by rw [hlen]; exact hb
      simp only [setMetaVal, metaVal, hidx]
      simp only [valsFor, lookupEntry_setEntry_self, Option.getD_some]
      exact getD_set_self _ i v none hvlen

/-- Looking a field property up in the snapshot entry list built from a
field list returns the captured value of that property. -/
theorem lookupEntry_snapshot_entries (s : CMState) (c : ClassDecl) :
    ∀ (l : List FieldDecl) (f : FieldDecl), f ∈ l →
      lookupEntry f.property (l.map (fun g => (g.property, metaVal s c g.property)))
        = some (metaVal s c f.property) := by
  intro l
  induction l with
  | nil => intro f hf; simp at hf
  | cons g gs ih =>
      intro f hf
      by_cases hp : g.property = f.property
      · simp [lookupEntry, hp]
      · have hfgs : f ∈ gs := by
          rcases List.mem_cons.mp hf with rfl | hm
          · exact absurd rfl hp
          · exact hm
        simp [lookupEntry, hp, ih f hfgs]

/-- C2: on a registered class with at least one field (and a value vector
of the declared length), takeSnapshot succeeds and returns one entry per
declared field property in declaration order, each holding the current
value of that property at the moment of capture; and the snapshot is a
detached copy: writing a new value to a property changes the live value
while the captured entry list is a fixed value built from the state at
capture time. -/
theorem C2_takeSnapshot_captures_current_values
    (c : ClassDecl) (s : CMState)
    (hreg : (lookupEntry c s.configs).isSome = true)
    (hne : c.fields ≠ [])
    (hlen : (valsFor s c).length = c.fields.length) :
    ∃ snap, takeSnapshot c s = Except.ok snap
      ∧ snap.map Prod.fst = c.fields.map (fun f => f.property)
      ∧ (∀ f ∈ c.fields, lookupEntry f.property snap = some (metaVal s c f.property))
      ∧ (∀ f ∈ c.fields, ∀ v : Option CValue,
            metaVal (assignInstanceProperty c f.property v s) c f.property = v) := by
  refine ⟨c.fields.map (fun f => (f.property, metaVal s c f.property)), ?_, ?_, ?_, ?_⟩
  · simp [takeSnapshot, getConfigValueOptionsMap, isEmpty_false_of_ne_nil hne]
  · simp [List.map_map]
  · intro f hf
    exact lookupEntry_snapshot_entries s c c.fields f hf
  · intro f hf v
    have hi : (fieldIndex? c f.property).isSome = true := findPropIndex_isSome_of_mem hf
    simp only [assignInstanceProperty, hi, if_true, if_pos]
    exact metaVal_setMetaVal_self s c f.property v hi hlen

/-- Witness for C2 at the registered example class. -/
theorem C2_takeSnapshot_captures_current_values_witness :
    ∃ snap, takeSnapshot exampleClass s1 = Except.ok snap
      ∧ snap.map Prod.fst = exampleClass.fields.map (fun f => f.property)
      ∧ (∀ f ∈ exampleClass.fields,
            lookupEntry f.property snap = some (metaVal s1 exampleClass f.property))
      ∧ (∀ f ∈ exampleClass.fields, ∀ v : Option CValue,
            metaVal (assignInstanceProperty exampleClass f.property v s1) exampleClass
              f.property = v) :=
  C2_takeSnapshot_captures_current_values exampleClass s1 (by decide) (by decide) (by decide)

/-- Assigning to a declared property the value it currently holds leaves
the state exactly unchanged. -/
theorem assignInstanceProperty_current_self (c : ClassDecl) (s : CMState)
    (vs : List (Option CValue)) (hvs : lookupEntry c s.metaVals = some vs)
    (hlen : vs.length = c.fields.length) (p : String)
    (hp : (fieldIndex? c p).isSome = true) :
    assignInstanceProperty c p (metaVal s c p) s = s := by
  cases hidx : fieldIndex? c p with
  | none => rw [hidx] at hp; exact Bool.noConfusion hp
  | some i =>
      have hb : i < c.fields.length := findPropIndex_lt_length hidx
      have hvals : valsFor s c = vs := by simp [valsFor, hvs]
      have hib : i < vs.length := by rw [hlen]; exact hb
      simp only [assignInstanceProperty, hidx, Option.isSome_some, if_true, if_pos]
      simp only [setMetaVal, metaVal, hidx, hvals]
      rw [set_getD_self vs i none hib, setEntry_lookup_self c vs s.metaVals hvs]

/-- Restoring entries that capture the current values of declared fields
succeeds and leaves the state exactly unchanged. -/
theorem restoreSnapshot_captured_fields (c : ClassDecl) (s : CMState) (inst : Instance)
    (hreg : lookupEntry c s.configs = some inst)
    (vs : List (Option CValue)) (hvs : lookupEntry c s.metaVals = some vs)
    (hlen : vs.length = c.fields.length) :
    ∀ fs : List FieldDecl, (∀ f ∈ fs, f ∈ c.fields) →
      restoreSnapshot c (fs.map (fun f => (f.property, metaVal s c f.property))) s
        = (Except.ok (), s) := by
  intro fs
  induction fs with
  | nil => intro _; rfl
  | cons f rest ih =>
      intro hsub
      have hf : f ∈ c.fields := hsub f (List.mem_cons_self f rest)
      have hi : (fieldIndex? c f.property).isSome = true := findPropIndex_isSome_of_mem hf
      simp only [List.map_cons, restoreSnapshot, get, hreg]
      rw [assignInstanceProperty_current_self c s vs hvs hlen f.property hi]
      exact ih (fun g hg => hsub g (List.mem_cons_of_mem f hg))

/-- C3: on a registered class with at least one field (and a stored value
vector of the declared length), restoring the snapshot just taken succeeds
and returns the state exactly unchanged: take-then-restore is the identity
on the manager state, so in particular on every field value. -/
theorem C3_take_then_restore_is_identity
    (c : ClassDecl) (s : CMState) (inst : Instance) (vs : List (Option CValue))
    (hreg : lookupEntry c s.configs = some inst)
    (hvs : lookupEntry c s.metaVals = some vs)
    (hlen : vs.length = c.fields.length)
    (hne : c.fields ≠ []) :
    ∃ snap, takeSnapshot c s = Except.ok snap
      ∧ restoreSnapshot c snap s = (Except.ok (), s) := by
  refine ⟨c.fields.map (fun f => (f.property, metaVal s c f.property)), ?_, ?_⟩
  · simp [takeSnapshot, getConfigValueOptionsMap, isEmpty_false_of_ne_nil hne]
  · exact restoreSnapshot_captured_fields c s inst hreg vs hvs hlen c.fields
      (fun f hf => hf)

/-- Witness for C3 at the registered example class. -/
theorem C3_take_then_restore_is_identity_witness :
    ∃ snap, takeSnapshot exampleClass s1 = Except.ok snap
      ∧ restoreSnapshot exampleClass snap s1 = (Except.ok (), s1) :=
  C3_take_then_restore_is_identity exampleClass s1 ⟨0, []⟩ [some (CValue.str "Hi")]
    (by decide) (by decide) (by decide) (by decide)

/-- Writing a metadata value never changes the registry map. -/
theorem setMetaVal_configs (s : CMState) (c : ClassDecl) (p : String) (v : Option CValue) :
    (setMetaVal s c p v).configs = s.configs := by
  unfold setMetaVal
  cases fieldIndex? c p <;> rfl

/-- A YAML assignment never changes the registry map. -/
theorem yamlAssign_configs (y : YamlDoc) (c : ClassDecl) (st : CMState) (k : String) :
    (yamlAssign y c st k).configs = st.configs := by
  unfold yamlAssign
  cases hx : getConfigValueNames c k with
  | none => rfl
  | some f => exact setMetaVal_configs st c f.property (lookupEntry k y)

/-- An environment assignment never changes the registry map. -/
theorem envAssign_configs (env : EnvMap) (c : ClassDecl) (st : CMState) (k : String) :
    (envAssign env c st k).configs = st.configs := by
  unfold envAssign
  cases hx : getConfigValueNames c k with
  | none => rfl
  | some f => exact setMetaVal_configs st c f.property (loadEnvironmentVariable env k f.type)

/-- Folding registry-preserving steps preserves the registry map. -/
theorem foldl_configs_eq {g : CMState → String → CMState}
    (hg : ∀ st k, (g st k).configs = st.configs) :
    ∀ (keys : List String) (st : CMState), (keys.foldl g st).configs = st.configs := by
  intro keys
  induction keys with
  | nil => intro st; rfl
  | cons k ks ih => intro st; rw [List.foldl_cons, ih, hg]

/-- The environment overlay never changes the registry map. -/
theorem envOverlay_configs (env : EnvMap) (c : ClassDecl) (s : CMState) :
    (envOverlay env c s).configs = s.configs := by
  unfold envOverlay
  exact foldl_configs_eq (fun st k => envAssign_configs env c st k) _ s

/-- The YAML overlay never changes the registry map, on success or error. -/
theorem yamlOverlay_snd_configs (files : FileSystem) (c : ClassDecl) (path : String)
    (s : CMState) : (yamlOverlay files c path s).snd.configs = s.configs := by
  unfold yamlOverlay
  cases hl : loadConfigfromYaml files path with
  | error e => rfl
  | ok y => exact foldl_configs_eq (fun st k => yamlAssign_configs y c st k) _ s

/-- After steps 1 to 3 of `add`, whatever happened, the registry holds the
fresh instance created at step 1 under the class token. -/
theorem preState_snd_configs (env : EnvMap) (files : FileSystem) (c : ClassDecl)
    (options : ConfigOptions) (s : CMState) :
    (preState env files c options s).snd.configs
      = setEntry c ⟨s.nextId, []⟩ s.configs := by
  unfold preState
  cases hopt : options.configYmlPath with
  | none =>
      dsimp only
      rw [envOverlay_configs]
      rfl
  | some path =>
      dsimp only
      by_cases hpath : path = ""
      · subst hpath
        rw [if_pos rfl]
        dsimp only
        rw [envOverlay_configs]
        rfl
      · rw [if_neg hpath]
        rcases hyr : yamlOverlay files c path
            (putConfig c (instantiate s c).fst (instantiate s c).snd) with ⟨r, sC⟩
        have h2 := yamlOverlay_snd_configs files c path
          (putConfig c (instantiate s c).fst (instantiate s c).snd)
        rw [hyr] at h2
        dsimp only at h2
        cases r with
        | error e =>
            dsimp only
            rw [h2]
            rfl
        | ok u =>
            dsimp only
            rw [envOverlay_configs, h2]
            rfl

/-- C6: when `add` fails after its two entry guards (that is, during the
YAML load or the required-field validation), the class stays registered in
the resulting state with the instance created and stored at step 1, and a
subsequent `get` returns that partially-initialized instance: registration
is not atomic on error. -/
theorem C6_register_not_atomic_on_error
    (env : EnvMap) (files : FileSystem) (c : ClassDecl) (options : ConfigOptions)
    (s : CMState) (e : CMError)
    (hnot : lookupEntry c s.configs = none)
    (hne : c.fields ≠ [])
    (herr : (add env files c options s).fst = Except.error e) :
    lookupEntry c (add env files c options s).snd.configs = some ⟨s.nextId, []⟩
    ∧ get c (add env files c options s).snd = Except.ok ⟨s.nextId, []⟩ := by
  have hval : validateConfigFieldOptions c = Except.ok () := by
    simp [validateConfigFieldOptions, isEmpty_false_of_ne_nil hne]
  unfold add at herr ⊢
  rw [hnot] at herr ⊢
  simp only [Option.isSome_none, Bool.false_eq_true, if_false] at herr ⊢
  rw [hval] at herr ⊢
  rcases hpre : preState env files c options s with ⟨r, sC⟩
  rw [hpre] at herr
  have hcfg : lookupEntry c sC.configs = some ⟨s.nextId, []⟩ := by
    have h2 := preState_snd_configs env files c options s
    rw [hpre] at h2
    dsimp only at h2
    rw [h2]
    exact lookupEntry_setEntry_self c ⟨s.nextId, []⟩ s.configs
  cases r with
  | error e2 =>
      dsimp only
      exact ⟨hcfg, by simp [get, hcfg]⟩
  | ok u =>
      dsimp only at herr ⊢
      cases hreq : validateRequiredConfigValues sC c with
      | error e3 =>
          dsimp only
          exact ⟨hcfg, by simp [get, hcfg]⟩
      | ok u2 =>
          rw [hreq] at herr
          dsimp only at herr
          simp [putConfig, lookupEntry_setEntry_self] at herr

/-- Witness for C6: registering a class whose required field has no
default, with empty environment and no YAML file, fails but leaves the
class registered with the step-1 instance. -/
theorem C6_register_not_atomic_on_error_witness :
    lookupEntry requiredClass (add [] [] requiredClass ⟨none⟩ s0).snd.configs
        = some ⟨0, []⟩
    ∧ get requiredClass (add [] [] requiredClass ⟨none⟩ s0).snd = Except.ok ⟨0, []⟩ :=
  C6_register_not_atomic_on_error [] [] requiredClass ⟨none⟩ s0
    (CMError.missingRequiredField "API_KEY") (by decide) (by decide) (by decide)

/-- A list containing an element satisfying the predicate has a find?
result. -/
theorem find?_isSome_of_mem {α : Type} (p : α → Bool) {x : α} {l : List α}
    (hmem : x ∈ l) (hp : p x = true) : (l.find? p).isSome = true := by
  simp only [List.find?_isSome]
  exact ⟨x, hmem, hp⟩

/-- C7: whenever steps 1 to 3 of registration succeed yet some field marked
required still has no non-empty defined value in the overlaid state, `add`
fails with MissingRequiredFieldError naming a field that is required and
missing (the first such field in declaration order). -/
theorem C7_missing_required_field_fails_registration
    (env : EnvMap) (files : FileSystem) (c : ClassDecl) (options : ConfigOptions)
    (s : CMState) (f : FieldDecl)
    (hnot : lookupEntry c s.configs = none)
    (hne : c.fields ≠ [])
    (hok : (preState env files c options s).fst = Except.ok ())
    (hf : f ∈ c.fields) (hreq : f.required = true)
    (hmiss : isMissingValue
        (metaVal (preState env files c options s).snd c f.property) = true) :
    ∃ g ∈ c.fields, g.required = true
      ∧ isMissingValue
          (metaVal (preState env files c options s).snd c g.property) = true
      ∧ (add env files c options s).fst
          = Except.error (CMError.missingRequiredField g.name) := by
  have hval : validateConfigFieldOptions c = Except.ok () := by
    simp [validateConfigFieldOptions, isEmpty_false_of_ne_nil hne]
  rcases hpre : preState env files c options s with ⟨r, sD⟩
  rw [hpre] at hok hmiss
  dsimp only at hok hmiss
  subst hok
  have hpred : (f.required && isMissingValue (metaVal sD c f.property)) = true := by
    rw [hreq, hmiss]
    rfl
  have hsome := find?_isSome_of_mem
    (fun g => g.required && isMissingValue (metaVal sD c g.property)) hf hpred
  cases hfind : c.fields.find?
      (fun g => g.required && isMissingValue (metaVal sD c g.property)) with
  | none => rw [hfind] at hsome; exact Bool.noConfusion hsome
  | some g =>
      have hg1 : g ∈ c.fields := List.mem_of_find?_eq_some hfind
      have hg2 := List.find?_some hfind
      have hg3 : g.required = true ∧ isMissingValue (metaVal sD c g.property) = true :=
        Bool.and_eq_true_iff.mp hg2
      refine ⟨g, hg1, hg3.left, hg3.right, ?_⟩
      unfold add
      rw [hnot]
      simp only [Option.isSome_none, Bool.false_eq_true, if_false]
      rw [hval]
      dsimp only
      rw [hpre]
      dsimp only
      unfold validateRequiredConfigValues
      rw [hfind]

/-- Witness for C7: a class whose single required field has no default,
registered with empty environment and no YAML file. -/
theorem C7_missing_required_field_fails_registration_witness :
    ∃ g ∈ requiredClass.fields, g.required = true
      ∧ isMissingValue
          (metaVal (preState [] [] requiredClass ⟨none⟩ s0).snd requiredClass
            g.property) = true
      ∧ (add [] [] requiredClass ⟨none⟩ s0).fst
          = Except.error (CMError.missingRequiredField g.name) :=
  C7_missing_required_field_fails_registration [] [] requiredClass ⟨none⟩ s0
    { property := "apiKey", name := "API_KEY", required := true }
    (by decide) (by decide) (by decide) (by decide) (by decide) (by decide)

/-- C8: when configYmlPath is omitted or the empty string, registration
does not read any file and assigns no YAML value: the run is identical to a
run with no configYmlPath over any other file system, and in particular the
environment overlay still takes place in that identical run. -/
theorem C8_empty_yaml_path_skips_file_loading
    (env : EnvMap) (files files2 : FileSystem) (c : ClassDecl) (s : CMState)
    (p : Option String) (hp : p = none ∨ p = some "") :
    add env files c ⟨p⟩ s = add env files2 c ⟨none⟩ s := by
  rcases hp with rfl | rfl
  · rfl
  · rfl

/-- Witness for C8 with the empty-string path against a file system that
does contain a file mapping the known config name. -/
theorem C8_empty_yaml_path_skips_file_loading_witness :
    add envHey [("local.yml", [("HELLO_WORLD", CValue.str "Yo World!")])]
        exampleClass ⟨some ""⟩ s0
      = add envHey [] exampleClass ⟨none⟩ s0 :=
  C8_empty_yaml_path_skips_file_loading envHey
    [("local.yml", [("HELLO_WORLD", CValue.str "Yo World!")])] [] exampleClass s0
    (some "") (Or.inr rfl)

/-- Appending one mapped element per step is appending the mapped list. -/
theorem foldl_append_singleton {α β : Type} (g : α → β) :
    ∀ (l : List α) (acc : List β),
      l.foldl (fun a x => a ++ [g x]) acc = acc ++ l.map g := by
  intro l
  induction l with
  | nil => intro acc; simp
  | cons x xs ih =>
      intro acc
      rw [List.foldl_cons, ih]
      simp

/-- The definitions fold pushes, class by class, the mapped field lists. -/
theorem defsFold_eq :
    ∀ (l : List (ClassDecl × Instance)) (acc : List ConfigPropertyDefinition),
      l.foldl
          (fun acc2 e => e.fst.fields.foldl (fun a f => a ++ [definitionOfField f]) acc2)
          acc
        = acc ++ (l.map (fun e => e.fst.fields.map definitionOfField)).flatten := by
  intro l
  induction l with
  | nil => intro acc; simp
  | cons e rest ih =>
      intro acc
      rw [List.foldl_cons, ih, foldl_append_singleton]
      simp [List.append_assoc]

/-- C9: getConfigsDefintions returns exactly one copied definition record
per declared field of every currently registered class, concatenated in
class-registration order and, within one class, in field declaration
order; on an empty registry this is the empty sequence. -/
theorem C9_definitions_one_copied_entry_per_field_in_order (s : CMState) :
    getConfigsDefintions s
      = (s.configs.map (fun e => e.fst.fields.map definitionOfField)).flatten := by
  unfold getConfigsDefintions
  rw [defsFold_eq]
  simp

/-- C10: when `add` succeeds, the instance it returns is exactly the
instance a subsequent `get` of that class returns from the resulting
state. -/
theorem C10_add_returns_the_registered_instance
    (env : EnvMap) (files : FileSystem) (c : ClassDecl) (options : ConfigOptions)
    (s : CMState) (inst : Instance)
    (hok : (add env files c options s).fst = Except.ok inst) :
    get c (add env files c options s).snd = Except.ok inst := by
  unfold add at hok ⊢
  cases hsome : (lookupEntry c s.configs).isSome with
  | true =>
      rw [hsome] at hok
      simp at hok
  | false =>
      rw [hsome] at hok
      simp only [Bool.false_eq_true, if_false] at hok ⊢
      cases hval : validateConfigFieldOptions c with
      | error e =>
          rw [hval] at hok
          dsimp only at hok
          exact Except.noConfusion hok
      | ok u =>
          rw [hval] at hok
          dsimp only at hok ⊢
          rcases hpre : preState env files c options s with ⟨r, sD⟩
          rw [hpre] at hok
          cases r with
          | error e =>
              dsimp only at hok
              exact Except.noConfusion hok
          | ok u2 =>
              dsimp only at hok ⊢
              cases hreq : validateRequiredConfigValues sD c with
              | error e =>
                  rw [hreq] at hok
                  dsimp only at hok
                  exact Except.noConfusion hok
              | ok u3 =>
                  rw [hreq] at hok
                  dsimp only at hok ⊢
                  unfold get
                  rw [putConfig] at hok ⊢
                  dsimp only at hok ⊢
                  rw [lookupEntry_setEntry_self] at hok ⊢
                  dsimp only at hok ⊢
                  exact hok

/-- Witness for C10: a successful registration of the example class. -/
theorem C10_add_returns_the_registered_instance_witness :
    get exampleClass (add envHey [] exampleClass ⟨none⟩ s0).snd = Except.ok ⟨1, []⟩ :=
  C10_add_returns_the_registered_instance envHey [] exampleClass ⟨none⟩ s0 ⟨1, []⟩
    (by decide)

end TypedConfigs
